import Mathlib

/-!
Shallow embedding of the `no-dynamic-class-names` rule of
`eslint-plugin-vue-better-classes` (source: the rule module, its
`getName`, `isSatisfyList`, `withProps`, and the mutually recursive
classification functions `reportDynamicInSpread`,
`reportDynamicInObject`, `reportDynamicInArray`,
`reportDynamicInConditional`, `reportDynamicInExpression`,
`reportDynamic`, and the `VAttribute` visitor installed by `create`).

Expressions are modelled as a tagged union over exactly the shapes the
classifier dispatches on (`Literal`, `Identifier`, `MemberExpression`,
`ObjectExpression`, `ArrayExpression`, `ConditionalExpression`), with a
catch-all constructor for every other expression shape (call
expressions, binary expressions, template literals, ...), which the
classifier treats uniformly via its final `report(expression)` branch.
Object properties and array elements are modelled as cons-lists of
their own inductive types so that the walk is plain structural
recursion, mirroring the `for ... of` loops of the source.
-/

/-- The `value` of an ESTree `Literal` as far as the rule inspects it:
the rule only ever asks `typeof expression.value === "string"`, so a
literal value is either a string or some non-string value. -/
inductive LitVal where
  | str (s : String)
  | nonStr
deriving DecidableEq, Repr

mutual
/-- ESTree expression shapes, as dispatched on by
`reportDynamicInExpression`. `member` keeps the `computed` flag the AST
carries even though the rule never reads it. -/
inductive Expr where
  | lit (v : LitVal)
  | ident (name : String)
  | member (obj : Expr) (property : Expr) (computed : Bool)
  | objectE (properties : Props)
  | arrayE (elements : Elems)
  | conditional (test consequent alternate : Expr)
  | other
deriving DecidableEq, Repr

/-- Entries of `ObjectExpression.properties`: each entry is a `SpreadElement` or a
`Property` with its `shorthand`/`computed`/`method` flags, key and
value. -/
inductive Props where
  | nil
  | consSpread (argument : Expr) (rest : Props)
  | consProp (shorthand computed method : Bool) (key value : Expr) (rest : Props)
deriving DecidableEq, Repr

/-- Entries of `ArrayExpression.elements`: each entry is `null` (elision), a
`SpreadElement`, or an expression. -/
inductive Elems where
  | nil
  | consHole (rest : Elems)
  | consSpread (argument : Expr) (rest : Elems)
  | consExpr (e : Expr) (rest : Elems)
deriving DecidableEq, Repr
end

/-- A call of the rule's `report` helper: the located node is either an
expression or a whole `Property` node (the latter only from the
`property.computed || property.method` branch of
`reportDynamicInObject`). -/
inductive Report where
  | expr (e : Expr)
  | prop (shorthand computed method : Bool) (key value : Expr)
deriving DecidableEq, Repr

/-- Model of `utils.isStringLiteral(node)`. Modelled from the spec: the helper
lives in the repository's `lib/utils/vue` module, which is not among
the given sources; the spec calls the accepted key shape "a
string-literal key", i.e. a `Literal` whose value is a string. -/
def isStringLiteral : Expr → Bool
  | .lit (.str _) => true
  | _ => false

/-- The test `expression.type === "Identifier"` as a shape test. -/
def isIdentifier : Expr → Bool
  | .ident _ => true
  | _ => false

mutual
/-- Embeds `reportDynamicInSpread(spread, allowedProps)`: structural recursion
into an array or object argument, otherwise `report(spread.argument)`. -/
def reportDynamicInSpread (allowConditional : Bool) (allowedProps : List String) :
    Expr → List Report
  | .arrayE elements => reportDynamicInArray allowConditional allowedProps elements
  | .objectE properties => reportDynamicInObject allowConditional allowedProps properties
  | argument => [Report.expr argument]

/-- Embeds `reportDynamicInObject(object, allowedProps)`: the `for (const
property of object.properties)` loop; reports are emitted in iteration
order, so the result is the concatenation of each iteration's output. -/
def reportDynamicInObject (allowConditional : Bool) (allowedProps : List String) :
    Props → List Report
  | .nil => []
  | .consSpread argument rest =>
      reportDynamicInSpread allowConditional allowedProps argument
        ++ reportDynamicInObject allowConditional allowedProps rest
  | .consProp shorthand computed method key value rest =>
      (if shorthand then []
       else if computed || method then [Report.prop shorthand computed method key value]
       else if isIdentifier key then []
       else if isStringLiteral key then []
       else if isIdentifier value then []
       else reportDynamicInExpression allowConditional allowedProps value)
        ++ reportDynamicInObject allowConditional allowedProps rest

/-- Embeds `reportDynamicInArray(array, allowedProps)`: the `for (const element
of array.elements)` loop; `null` elements are skipped. -/
def reportDynamicInArray (allowConditional : Bool) (allowedProps : List String) :
    Elems → List Report
  | .nil => []
  | .consHole rest => reportDynamicInArray allowConditional allowedProps rest
  | .consSpread argument rest =>
      reportDynamicInSpread allowConditional allowedProps argument
        ++ reportDynamicInArray allowConditional allowedProps rest
  | .consExpr e rest =>
      reportDynamicInExpression allowConditional allowedProps e
        ++ reportDynamicInArray allowConditional allowedProps rest

/-- Embeds `reportDynamicInExpression(expression, allowedProps)`: the chain of
`if (expression.type === ...)` tests; since the type tags are mutually
exclusive the chain is a dispatch on the shape, ending in
`report(expression)` for every shape not accepted or recursed into. -/
def reportDynamicInExpression (allowConditional : Bool) (allowedProps : List String) :
    Expr → List Report
  | .lit (.str _) => []
  | .ident name =>
      if allowedProps.contains name then [] else [Report.expr (.ident name)]
  | .member obj property computed =>
      if (match obj, property with
          | .ident objName, .ident propName =>
              (["$props", "$attrs"] : List String).contains objName
                && allowedProps.contains propName
          | _, _ => false) then []
      else [Report.expr (.member obj property computed)]
  | .objectE properties => reportDynamicInObject allowConditional allowedProps properties
  | .arrayE elements => reportDynamicInArray allowConditional allowedProps elements
  | .conditional test consequent alternate =>
      -- `reportDynamicInConditional(expression, allowedProps)` inlined
      -- (it is defined as a standalone wrapper below so the recursion
      -- stays structural): the source recurses into
      -- `conditional.alternate` first, then `conditional.consequent`;
      -- the test is never visited.
      if allowConditional then
        reportDynamicInExpression allowConditional allowedProps alternate
          ++ reportDynamicInExpression allowConditional allowedProps consequent
      else [Report.expr (.conditional test consequent alternate)]
  | e => [Report.expr e]
end

/-- Embeds `reportDynamicInConditional(conditional, allowedProps)`, applied to
the three components of the conditional: recurses into the alternate
first, then the consequent; the test is never visited. -/
def reportDynamicInConditional (allowConditional : Bool) (allowedProps : List String)
    (_test consequent alternate : Expr) : List Report :=
  reportDynamicInExpression allowConditional allowedProps alternate
    ++ reportDynamicInExpression allowConditional allowedProps consequent

/-! Attribute-level model: the functions `getName`, `isSatisfyList`,
`reportDynamic` and the `VAttribute` visitor installed by `create`. -/

/-- The `argument` of a directive key (`VDirectiveKey.argument`): absent,
a static `VIdentifier`, or some other node (e.g. a dynamic argument). -/
inductive VDirectiveArg where
  | vIdentifier (name : String)
  | otherArg
deriving DecidableEq, Repr

/-- An attribute's `value`: `null`, a `VLiteral` (plain text of a
non-directive attribute), or a `VExpressionContainer` whose `expression`
may itself be `null`. -/
inductive VAttrValue where
  | vLiteral (s : String)
  | vExpressionContainer (expression : Option Expr)
deriving DecidableEq, Repr

/-- A `VAttribute | VDirective` node: a plain attribute carries
`key.name : string`; a directive carries `key.name.name` (the directive
kind, e.g. `"bind"`), the key's optional argument, and a value. -/
inductive VAttr where
  | plain (keyName : String) (value : Option VAttrValue)
  | directive (keyName : String) (argument : Option VDirectiveArg)
      (value : Option VAttrValue)
deriving DecidableEq, Repr

/-- Embeds `getName(attribute)`: a plain attribute resolves to its key name; a
directive resolves to its static identifier argument when the directive
is `bind`, and to `null` otherwise. The source computes
`(argument && argument.type === "VIdentifier" && argument.name) || null`,
so a `VIdentifier` whose name is the empty string (falsy in JS) also
yields `null`. -/
def getName : VAttr → Option String
  | .plain keyName _ => some keyName
  | .directive keyName argument _ =>
      if keyName = "bind" then
        match argument with
        | some (.vIdentifier name) => if name = "" then none else some name
        | _ => none
      else none

/-- Embeds `isSatisfyList(list, item)`. The regexp helpers (`isRegExp`,
`toRegExp`) live in the repository's `lib/utils/regexp` module, which is
not among the given sources; they are abstracted as parameters
`isRegExpFn` (does the list entry denote a pattern) and `testFn`
(pattern matches item), per the spec's
"literal-equality-or-first-matching-pattern". -/
def isSatisfyList (isRegExpFn : String → Bool) (testFn : String → String → Bool)
    (list : List String) (item : String) : Bool :=
  if list.contains item then true
  else (list.filter isRegExpFn).any (fun reg => testFn reg item)

/-- The `names` list built in `create`:
`const names = [...classAttrNames]; if (!names.includes("class")) names.push("class")`. -/
def createNames (classAttrNames : List String) : List String :=
  if classAttrNames.contains "class" then classAttrNames
  else classAttrNames ++ ["class"]

/-- Embeds `reportDynamic(attribute, allowedProps)`: nothing to classify when
the attribute has no value, the value is a `VLiteral`, or the bound
expression is absent; otherwise classify the expression. -/
def reportDynamic (allowConditional : Bool) (attr : VAttr)
    (allowedProps : List String) : List Report :=
  match attr with
  | .plain _ value | .directive _ _ value =>
      match value with
      | none => []
      | some (.vLiteral _) => []
      | some (.vExpressionContainer none) => []
      | some (.vExpressionContainer (some expression)) =>
          reportDynamicInExpression allowConditional allowedProps expression

/-- The `VAttribute(node)` visitor body installed by `create`: resolve
the attribute's name; if it is `null` or does not satisfy the watched
name list, do nothing; otherwise run `reportDynamic`. -/
def visitVAttribute (isRegExpFn : String → Bool) (testFn : String → String → Bool)
    (names : List String) (allowConditional : Bool) (attr : VAttr)
    (props : List String) : List Report :=
  match getName attr with
  | none => []
  | some name =>
      if isSatisfyList isRegExpFn testFn names name then
        reportDynamic allowConditional attr props
      else []

/-! Prop Collector: the function `withProps`. -/

/-- The result of `withProps`: whether the component visitors
(`defineScriptSetupVisitor` / `defineVueVisitor`) were installed, and
the `propNames` list handed to the body visitor. -/
structure WithPropsResult where
  componentVisitorsInstalled : Bool
  propNames : List String
deriving DecidableEq, Repr

/-- Embeds `withProps(context, bodyVisitor)`. The visitor plumbing
(`defineScriptSetupVisitor`, `defineVueVisitor`,
`compositingVisitors`, `getComponentPropsFromOptions`) lives in the
repository's `lib/utils/vue` module, which is not among the given
sources. Modelled from the spec: each `onDefinePropsEnter` /
`onVueObjectEnter` callback invocation yields a list of declared
property names, `propName` being absent (`none`) for a non-string name
(computed/symbol key); the source appends
`props.map((p) => p.propName).filter(isString)` for each invocation, in
invocation order, to the list seeded with `"class"`. When `allowProps`
is `false` the body visitor is returned directly with `["class"]` and no
component visitor is installed. -/
def withProps (allowProps : Bool)
    (propEvents : List (List (Option String))) : WithPropsResult :=
  if allowProps = false then ⟨false, ["class"]⟩
  else ⟨true, "class" :: (propEvents.map (fun props => props.filterMap id)).flatten⟩

/-! Instrumentation.

Ghost definitions used only to *state* properties of the walk: which
identifier occurrences the walk classifies (needed to phrase
"reachable by the classification recursion"), a counter of reports
located at a given identifier name, and a fuel-bounded copy of the walk
(needed to phrase termination). They mirror the recursion of the
classification functions above step for step. -/

mutual
/-- Names of the identifier occurrences inside a spread argument that
the walk classifies: the argument itself when it is an identifier
(`report(spread.argument)` fires on it), or the occurrences reached
through a structural recursion into an array/object argument. -/
def reachedIdentsInSpread (allowConditional : Bool) : Expr → List String
  | .arrayE elements => reachedIdentsInArray allowConditional elements
  | .objectE properties => reachedIdentsInObject allowConditional properties
  | .ident name => [name]
  | _ => []

/-- Names of the identifier occurrences inside an object literal that
the walk classifies. An identifier that is the *immediate* value of a
property whose key is neither an identifier nor a string literal is
skipped by the walk (`if (property.value.type === "Identifier")
continue`), so it is not reached. -/
def reachedIdentsInObject (allowConditional : Bool) : Props → List String
  | .nil => []
  | .consSpread argument rest =>
      reachedIdentsInSpread allowConditional argument
        ++ reachedIdentsInObject allowConditional rest
  | .consProp shorthand computed method key value rest =>
      (if shorthand then []
       else if computed || method then []
       else if isIdentifier key then []
       else if isStringLiteral key then []
       else if isIdentifier value then []
       else reachedIdentsInExpression allowConditional value)
        ++ reachedIdentsInObject allowConditional rest

/-- Names of the identifier occurrences inside an array literal that
the walk classifies. -/
def reachedIdentsInArray (allowConditional : Bool) : Elems → List String
  | .nil => []
  | .consHole rest => reachedIdentsInArray allowConditional rest
  | .consSpread argument rest =>
      reachedIdentsInSpread allowConditional argument
        ++ reachedIdentsInArray allowConditional rest
  | .consExpr e rest =>
      reachedIdentsInExpression allowConditional e
        ++ reachedIdentsInArray allowConditional rest

/-- Names of the identifier occurrences that
`reportDynamicInExpression` classifies: the expression itself when it
is an identifier, and otherwise the occurrences reached through its
structural recursion (nothing inside a member access, a literal, a
catch-all shape, or a conditional when `allowConditional` is off). -/
def reachedIdentsInExpression (allowConditional : Bool) : Expr → List String
  | .ident name => [name]
  | .objectE properties => reachedIdentsInObject allowConditional properties
  | .arrayE elements => reachedIdentsInArray allowConditional elements
  | .conditional _test consequent alternate =>
      if allowConditional then
        reachedIdentsInExpression allowConditional alternate
          ++ reachedIdentsInExpression allowConditional consequent
      else []
  | _ => []
end

/-- Is this report located at an identifier named `name`? -/
def reportAtIdent (name : String) : Report → Bool
  | .expr (.ident m) => m = name
  | _ => false

/-- How many of the reports are located at an identifier named `name`. -/
def countIdentReports (name : String) (reports : List Report) : Nat :=
  reports.countP (reportAtIdent name)

/-- Sequencing of two fuel-bounded sub-walks: `optAppend a b = some (x ++ y)`
when `a = some x` and `b = some y`, otherwise `none`. -/
def optAppend (a b : Option (List Report)) : Option (List Report) :=
  match a, b with
  | some x, some y => some (x ++ y)
  | _, _ => none

mutual
/-- The function `reportDynamicInSpread` with an explicit recursion-depth budget:
`none` means the budget ran out. -/
def fuelReportDynamicInSpread :
    Nat → Bool → List String → Expr → Option (List Report)
  | 0, _, _, _ => none
  | fuel + 1, allowConditional, allowedProps, .arrayE elements =>
      fuelReportDynamicInArray fuel allowConditional allowedProps elements
  | fuel + 1, allowConditional, allowedProps, .objectE properties =>
      fuelReportDynamicInObject fuel allowConditional allowedProps properties
  | _ + 1, _, _, argument => some [Report.expr argument]

/-- The function `reportDynamicInObject` with an explicit recursion-depth budget. -/
def fuelReportDynamicInObject :
    Nat → Bool → List String → Props → Option (List Report)
  | 0, _, _, _ => none
  | _ + 1, _, _, .nil => some []
  | fuel + 1, allowConditional, allowedProps, .consSpread argument rest =>
      optAppend (fuelReportDynamicInSpread fuel allowConditional allowedProps argument)
        (fuelReportDynamicInObject fuel allowConditional allowedProps rest)
  | fuel + 1, allowConditional, allowedProps,
      .consProp shorthand computed method key value rest =>
      optAppend
        (if shorthand then some []
         else if computed || method then
           some [Report.prop shorthand computed method key value]
         else if isIdentifier key then some []
         else if isStringLiteral key then some []
         else if isIdentifier value then some []
         else fuelReportDynamicInExpression fuel allowConditional allowedProps value)
        (fuelReportDynamicInObject fuel allowConditional allowedProps rest)

/-- The function `reportDynamicInArray` with an explicit recursion-depth budget. -/
def fuelReportDynamicInArray :
    Nat → Bool → List String → Elems → Option (List Report)
  | 0, _, _, _ => none
  | _ + 1, _, _, .nil => some []
  | fuel + 1, allowConditional, allowedProps, .consHole rest =>
      fuelReportDynamicInArray fuel allowConditional allowedProps rest
  | fuel + 1, allowConditional, allowedProps, .consSpread argument rest =>
      optAppend (fuelReportDynamicInSpread fuel allowConditional allowedProps argument)
        (fuelReportDynamicInArray fuel allowConditional allowedProps rest)
  | fuel + 1, allowConditional, allowedProps, .consExpr e rest =>
      optAppend (fuelReportDynamicInExpression fuel allowConditional allowedProps e)
        (fuelReportDynamicInArray fuel allowConditional allowedProps rest)

/-- The function `reportDynamicInExpression` with an explicit recursion-depth
budget. -/
def fuelReportDynamicInExpression :
    Nat → Bool → List String → Expr → Option (List Report)
  | 0, _, _, _ => none
  | _ + 1, _, _, .lit (.str _) => some []
  | _ + 1, _, allowedProps, .ident name =>
      some (if allowedProps.contains name then [] else [Report.expr (.ident name)])
  | _ + 1, _, allowedProps, .member obj property computed =>
      some
        (if (match obj, property with
             | .ident objName, .ident propName =>
                 (["$props", "$attrs"] : List String).contains objName
                   && allowedProps.contains propName
             | _, _ => false) then []
         else [Report.expr (.member obj property computed)])
  | fuel + 1, allowConditional, allowedProps, .objectE properties =>
      fuelReportDynamicInObject fuel allowConditional allowedProps properties
  | fuel + 1, allowConditional, allowedProps, .arrayE elements =>
      fuelReportDynamicInArray fuel allowConditional allowedProps elements
  | fuel + 1, allowConditional, allowedProps, .conditional test consequent alternate =>
      if allowConditional then
        optAppend
          (fuelReportDynamicInExpression fuel allowConditional allowedProps alternate)
          (fuelReportDynamicInExpression fuel allowConditional allowedProps consequent)
      else some [Report.expr (.conditional test consequent alternate)]
  | _ + 1, _, _, e => some [Report.expr e]
end

/-- The C4 hypothesis as a boolean predicate: every property of the
object literal is a non-computed, non-method `Property` that is
shorthand or has an identifier key or a string-literal key (and no
entry is a spread). -/
def staticShapedProps : Props → Bool
  | .nil => true
  | .consSpread _ _ => false
  | .consProp shorthand computed method key _value rest =>
      !computed && !method && (shorthand || isIdentifier key || isStringLiteral key)
        && staticShapedProps rest

mutual
/-- Node-count of an expression (strings and flags count 0), the
recursion-depth bound for the fuel-bounded walk. -/
def exprSize : Expr → Nat
  | .lit _ => 1
  | .ident _ => 1
  | .member obj property _ => 1 + exprSize obj + exprSize property
  | .objectE properties => 1 + propsSize properties
  | .arrayE elements => 1 + elemsSize elements
  | .conditional test consequent alternate =>
      1 + exprSize test + exprSize consequent + exprSize alternate
  | .other => 1

def propsSize : Props → Nat
  | .nil => 1
  | .consSpread argument rest => 1 + exprSize argument + propsSize rest
  | .consProp _ _ _ key value rest =>
      1 + exprSize key + exprSize value + propsSize rest

def elemsSize : Elems → Nat
  | .nil => 1
  | .consHole rest => 1 + elemsSize rest
  | .consSpread argument rest => 1 + exprSize argument + elemsSize rest
  | .consExpr e rest => 1 + exprSize e + elemsSize rest
end

/-! Helper lemmas. -/

theorem isIdentifier_eq_true_iff (e : Expr) : isIdentifier e = true ↔ ∃ n, e = .ident n := by
  cases e <;> simp [isIdentifier]

theorem isStringLiteral_eq_true_iff (e : Expr) :
    isStringLiteral e = true ↔ ∃ s, e = .lit (.str s) := by
  cases e with
  | lit v => cases v <;> simp [isStringLiteral]
  | _ => simp [isStringLiteral]

theorem countIdentReports_append (n : String) (xs ys : List Report) :
    countIdentReports n (xs ++ ys) = countIdentReports n xs + countIdentReports n ys :=
  List.countP_append _ _ _

theorem reportDynamicInConditional_eq (allowConditional : Bool)
    (allowedProps : List String) (test consequent alternate : Expr) :
    reportDynamicInExpression allowConditional allowedProps
        (.conditional test consequent alternate)
      = if allowConditional then
          reportDynamicInConditional allowConditional allowedProps test consequent alternate
        else [Report.expr (.conditional test consequent alternate)] := rfl

/-! Theorems for the claims. -/

/-- C5: with `allowConditional = false`, a conditional expression bound
as the class value is reported as exactly one dynamic occurrence
located at the whole conditional, and no report is emitted for any
sub-expression of its test, consequent or alternate (the output is
exactly the singleton at the conditional itself, so nothing inside is
ever reported). -/
theorem c5_conditional_reported_whole (allowedProps : List String)
    (test consequent alternate : Expr) :
    reportDynamicInExpression false allowedProps
        (.conditional test consequent alternate)
      = [Report.expr (.conditional test consequent alternate)] := rfl

/-- C6: a member-access expression is accepted (no report) iff its
object is an identifier named `$props` or `$attrs` and its property is
an identifier whose name is in the allowed set; otherwise the output is
exactly one report located at the member expression itself (so the walk
never recurses into the object or property sub-expressions). -/
theorem c6_member_access_accepted_iff (allowConditional : Bool)
    (allowedProps : List String) (obj property : Expr) (computed : Bool) :
    (reportDynamicInExpression allowConditional allowedProps
          (.member obj property computed) = []
      ↔ ∃ propName, property = .ident propName ∧ propName ∈ allowedProps
          ∧ (obj = .ident "$props" ∨ obj = .ident "$attrs"))
    ∧ (reportDynamicInExpression allowConditional allowedProps
          (.member obj property computed) = []
        ∨ reportDynamicInExpression allowConditional allowedProps
            (.member obj property computed)
          = [Report.expr (.member obj property computed)]) := by
  constructor
  · cases obj <;> cases property <;>
      simp [reportDynamicInExpression] <;> aesop
  · simp only [reportDynamicInExpression]
    split
    · exact Or.inl rfl
    · exact Or.inr rfl

/-- C7: `"class"` is always a member of the watched attribute-name list
built by `create`, and when the prop-collection path runs
(`allowProps = true`) `"class"` is the first entry of the allowed-name
list handed to classification. -/
theorem c7_class_always_present :
    (∀ classAttrNames : List String, "class" ∈ createNames classAttrNames)
    ∧ (∀ propEvents : List (List (Option String)),
        ((withProps true propEvents).propNames).head? = some "class") := by
  constructor
  · intro l
    unfold createNames
    split
    · next h => simpa using h
    · simp
  · intro propEvents
    simp [withProps]

/-- C8: with `allowProps = false` the Prop Collector returns exactly
`["class"]` and installs no component visitors; with
`allowProps = true` it installs the component visitors and the
collected allowed-name list holds exactly `"class"` together with the
string-valued declared property names (a `none` propName — a non-string
property name — is silently excluded), and when no authoring style
yields any props the list is just `["class"]`. -/
theorem c8_prop_collector :
    (∀ propEvents : List (List (Option String)),
        withProps false propEvents = ⟨false, ["class"]⟩)
    ∧ (∀ propEvents : List (List (Option String)),
        (withProps true propEvents).componentVisitorsInstalled = true)
    ∧ (∀ (propEvents : List (List (Option String))) (name : String),
        name ∈ (withProps true propEvents).propNames
          ↔ name = "class" ∨ ∃ props ∈ propEvents, some name ∈ props)
    ∧ (withProps true []).propNames = ["class"] := by
  refine ⟨fun _ => rfl, fun _ => rfl, ?_, rfl⟩
  intro propEvents name
  simp only [withProps, if_neg (by simp : ¬(true = false))]
  simp [List.mem_flatten, List.mem_map, List.mem_filterMap]

/-- C10: a directive's resolved name is non-null only when the
directive is `bind` with a static `VIdentifier` argument (and is then
that argument's name); a non-`bind` directive, and a `bind` with a
missing or non-identifier argument, resolve to `null`; and an attribute
whose name resolves to `null` is never matched against the watched-name
list and produces no report, regardless of its value. -/
theorem c10_directive_name_resolution :
    (∀ (directiveName : String) (argument : Option VDirectiveArg)
        (value : Option VAttrValue) (resolved : String),
        getName (.directive directiveName argument value) = some resolved →
          directiveName = "bind" ∧ argument = some (.vIdentifier resolved))
    ∧ (∀ (directiveName : String) (argument : Option VDirectiveArg)
        (value : Option VAttrValue), directiveName ≠ "bind" →
          getName (.directive directiveName argument value) = none)
    ∧ (∀ (directiveName : String) (value : Option VAttrValue),
        getName (.directive directiveName none value) = none)
    ∧ (∀ (directiveName : String) (value : Option VAttrValue),
        getName (.directive directiveName (some .otherArg) value) = none)
    ∧ (∀ (isRegExpFn : String → Bool) (testFn : String → String → Bool)
        (names : List String) (allowConditional : Bool) (directiveName : String)
        (argument : Option VDirectiveArg) (value : Option VAttrValue)
        (props : List String),
        getName (.directive directiveName argument value) = none →
          visitVAttribute isRegExpFn testFn names allowConditional
            (.directive directiveName argument value) props = []) := by
  refine ⟨?_, ?_, ?_, ?_, ?_⟩
  · intro dn arg v resolved h
    by_cases hdn : dn = "bind"
    · subst hdn
      match arg with
      | none => simp [getName] at h
      | some .otherArg => simp [getName] at h
      | some (.vIdentifier name) =>
          by_cases hn : name = ""
          · simp [getName, hn] at h
          · simp [getName, hn] at h
            exact ⟨rfl, by rw [h]⟩
    · simp [getName, hdn] at h
  · intro dn arg v h
    simp [getName, h]
  · intro dn v
    by_cases hdn : dn = "bind" <;> simp [getName, hdn]
  · intro dn v
    by_cases hdn : dn = "bind" <;> simp [getName, hdn]
  · intro irf tf names ac dn arg v props h
    simp [visitVAttribute, h]

/-- C2 counterexample: with `allowConditional = true` and allowed names
`["class", "active"]`, classifying `cond ? "active" : ""` (with `cond`
not in the allowed set) does not produce one report located at `cond` —
it produces no report at all, because the walk never visits a
conditional's test. -/
theorem c2_counterexample :
    reportDynamicInExpression true ["class", "active"]
        (.conditional (.ident "cond") (.lit (.str "active")) (.lit (.str "")))
      ≠ [Report.expr (.ident "cond")] := by decide

/-- C2 amended: with `allowConditional = true` and allowed names
`["class", "active"]`, classifying `cond ? "active" : ""` produces no
report: both string-literal branches are accepted and the conditional's
test is never classified (no identifier occurrence is even reached). -/
theorem c2_amended_zero_reports :
    reportDynamicInExpression true ["class", "active"]
        (.conditional (.ident "cond") (.lit (.str "active")) (.lit (.str ""))) = []
    ∧ reachedIdentsInExpression true
        (.conditional (.ident "cond") (.lit (.str "active")) (.lit (.str ""))) = [] := by
  decide

/-- C3 counterexample: with `allowConditional = true` and an empty
allowed set, classifying `other ? a : b` emits the report at `b` (the
alternate) before the report at `a` (the consequent), not the other way
round as the claim's left-to-right order requires. -/
theorem c3_counterexample :
    reportDynamicInExpression true [] (.conditional .other (.ident "a") (.ident "b"))
        = [Report.expr (.ident "b"), Report.expr (.ident "a")]
    ∧ reportDynamicInExpression true [] (.conditional .other (.ident "a") (.ident "b"))
        ≠ [Report.expr (.ident "a"), Report.expr (.ident "b")] := by decide

/-- C3 amended: reports are emitted depth-first and append-only; within
object literals and array literals the per-entry outputs are
concatenated in left-to-right positional order, but for a conditional
with `allowConditional = true` the reports arising from the alternate
precede the reports arising from the consequent (and the test
contributes none). -/
theorem c3_amended_traversal_order (allowedProps : List String) :
    (∀ test consequent alternate : Expr,
        reportDynamicInExpression true allowedProps
            (.conditional test consequent alternate)
          = reportDynamicInExpression true allowedProps alternate
              ++ reportDynamicInExpression true allowedProps consequent)
    ∧ (∀ (allowConditional : Bool) (argument : Expr) (rest : Props),
        reportDynamicInObject allowConditional allowedProps (.consSpread argument rest)
          = reportDynamicInSpread allowConditional allowedProps argument
              ++ reportDynamicInObject allowConditional allowedProps rest)
    ∧ (∀ (allowConditional shorthand computed method : Bool) (key value : Expr)
        (rest : Props),
        reportDynamicInObject allowConditional allowedProps
            (.consProp shorthand computed method key value rest)
          = reportDynamicInObject allowConditional allowedProps
              (.consProp shorthand computed method key value .nil)
              ++ reportDynamicInObject allowConditional allowedProps rest)
    ∧ (∀ (allowConditional : Bool) (argument : Expr) (rest : Elems),
        reportDynamicInArray allowConditional allowedProps (.consSpread argument rest)
          = reportDynamicInSpread allowConditional allowedProps argument
              ++ reportDynamicInArray allowConditional allowedProps rest)
    ∧ (∀ (allowConditional : Bool) (e : Expr) (rest : Elems),
        reportDynamicInArray allowConditional allowedProps (.consExpr e rest)
          = reportDynamicInExpression allowConditional allowedProps e
              ++ reportDynamicInArray allowConditional allowedProps rest) := by
  refine ⟨fun t c a => rfl, fun ac arg rest => rfl, ?_, fun ac arg rest => rfl,
    fun ac e rest => rfl⟩
  intro ac sh co me k v rest
  simp [reportDynamicInObject]

/-- All-static object literals produce no reports, property by
property. -/
theorem staticShapedProps_no_reports (allowConditional : Bool)
    (allowedProps : List String) :
    ∀ props : Props, staticShapedProps props = true →
      reportDynamicInObject allowConditional allowedProps props = []
  | .nil, _ => rfl
  | .consSpread _ _, h => by simp [staticShapedProps] at h
  | .consProp shorthand computed method key value rest, h => by
      simp only [staticShapedProps, Bool.and_eq_true, Bool.not_eq_true',
        Bool.or_eq_true] at h
      obtain ⟨⟨⟨hco, hme⟩, hkey⟩, hrest⟩ := h
      have ih := staticShapedProps_no_reports allowConditional allowedProps rest hrest
      subst hco hme
      simp only [reportDynamicInObject, ih, List.append_nil]
      rcases hkey with (hsh | hk) | hk
      · simp [hsh]
      · obtain ⟨n, rfl⟩ := (isIdentifier_eq_true_iff key).mp hk
        cases shorthand <;> simp [isIdentifier]
      · obtain ⟨s, rfl⟩ := (isStringLiteral_eq_true_iff key).mp hk
        cases shorthand <;> simp [isIdentifier, isStringLiteral]

/-- C4: an object literal in which every property is shorthand, or has
a plain-identifier key, or has a string-literal key (no spread, no
computed key, no method-valued property) classifies without any report,
for every allowed-name set, every `allowConditional` setting, and
arbitrary property value expressions. -/
theorem c4_static_object_never_reported (allowConditional : Bool)
    (allowedProps : List String) (props : Props)
    (h : staticShapedProps props = true) :
    reportDynamicInExpression allowConditional allowedProps (.objectE props) = [] :=
  staticShapedProps_no_reports allowConditional allowedProps props h

/-- C4 witness: a concrete static-shaped object literal
`{ active: isOpen, "a b": cond ? x : y, foo }` (an identifier key with
a non-literal value, a string-literal key with a conditional value, and
a shorthand property) classifies without reports under the empty
allowed-name set. -/
theorem c4_witness :
    staticShapedProps
        (.consProp false false false (.ident "active") (.ident "isOpen")
          (.consProp false false false (.lit (.str "a b"))
            (.conditional (.ident "cond") (.ident "x") (.ident "y"))
            (.consProp true false false (.ident "foo") (.ident "foo") .nil))) = true
    ∧ reportDynamicInExpression false []
        (.objectE (.consProp false false false (.ident "active") (.ident "isOpen")
          (.consProp false false false (.lit (.str "a b"))
            (.conditional (.ident "cond") (.ident "x") (.ident "y"))
            (.consProp true false false (.ident "foo") (.ident "foo") .nil)))) = [] :=
  ⟨by decide,
    c4_static_object_never_reported false []
      (.consProp false false false (.ident "active") (.ident "isOpen")
        (.consProp false false false (.lit (.str "a b"))
          (.conditional (.ident "cond") (.ident "x") (.ident "y"))
          (.consProp true false false (.ident "foo") (.ident "foo") .nil)))
      (by decide)⟩

mutual
theorem countReachedInSpread (allowConditional : Bool) (allowedProps : List String)
    (n : String) (h : allowedProps.contains n = false) :
    ∀ e : Expr, countIdentReports n (reportDynamicInSpread allowConditional allowedProps e)
      = (reachedIdentsInSpread allowConditional e).count n
  | .arrayE elements => countReachedInArray allowConditional allowedProps n h elements
  | .objectE properties => countReachedInObject allowConditional allowedProps n h properties
  | .ident name => by
      by_cases hn : name = n
      · subst hn
        simp [reportDynamicInSpread, reachedIdentsInSpread, countIdentReports, reportAtIdent]
      · simp [reportDynamicInSpread, reachedIdentsInSpread, countIdentReports,
          reportAtIdent, hn, List.count_cons]
  | .lit v => by
      simp [reportDynamicInSpread, reachedIdentsInSpread, countIdentReports, reportAtIdent]
  | .member o p c => by
      simp [reportDynamicInSpread, reachedIdentsInSpread, countIdentReports, reportAtIdent]
  | .conditional t c a => by
      simp [reportDynamicInSpread, reachedIdentsInSpread, countIdentReports, reportAtIdent]
  | .other => by
      simp [reportDynamicInSpread, reachedIdentsInSpread, countIdentReports, reportAtIdent]

theorem countReachedInObject (allowConditional : Bool) (allowedProps : List String)
    (n : String) (h : allowedProps.contains n = false) :
    ∀ ps : Props, countIdentReports n (reportDynamicInObject allowConditional allowedProps ps)
      = (reachedIdentsInObject allowConditional ps).count n
  | .nil => by simp [reportDynamicInObject, reachedIdentsInObject, countIdentReports]
  | .consSpread argument rest => by
      have h1 := countReachedInSpread allowConditional allowedProps n h argument
      have h2 := countReachedInObject allowConditional allowedProps n h rest
      simp only [reportDynamicInObject, reachedIdentsInObject]
      rw [countIdentReports_append, List.count_append, h1, h2]
  | .consProp shorthand computed method key value rest => by
      have hv := countReachedInExpression allowConditional allowedProps n h value
      have h2 := countReachedInObject allowConditional allowedProps n h rest
      simp only [reportDynamicInObject, reachedIdentsInObject]
      rw [countIdentReports_append, List.count_append, h2]
      congr 1
      split
      · simp [countIdentReports]
      · split
        · simp [countIdentReports, reportAtIdent]
        · split
          · simp [countIdentReports]
          · split
            · simp [countIdentReports]
            · split
              · simp [countIdentReports]
              · exact hv

theorem countReachedInArray (allowConditional : Bool) (allowedProps : List String)
    (n : String) (h : allowedProps.contains n = false) :
    ∀ es : Elems, countIdentReports n (reportDynamicInArray allowConditional allowedProps es)
      = (reachedIdentsInArray allowConditional es).count n
  | .nil => by simp [reportDynamicInArray, reachedIdentsInArray, countIdentReports]
  | .consHole rest => by
      have h2 := countReachedInArray allowConditional allowedProps n h rest
      simpa [reportDynamicInArray, reachedIdentsInArray] using h2
  | .consSpread argument rest => by
      have h1 := countReachedInSpread allowConditional allowedProps n h argument
      have h2 := countReachedInArray allowConditional allowedProps n h rest
      simp only [reportDynamicInArray, reachedIdentsInArray]
      rw [countIdentReports_append, List.count_append, h1, h2]
  | .consExpr e rest => by
      have h1 := countReachedInExpression allowConditional allowedProps n h e
      have h2 := countReachedInArray allowConditional allowedProps n h rest
      simp only [reportDynamicInArray, reachedIdentsInArray]
      rw [countIdentReports_append, List.count_append, h1, h2]

theorem countReachedInExpression (allowConditional : Bool) (allowedProps : List String)
    (n : String) (h : allowedProps.contains n = false) :
    ∀ e : Expr, countIdentReports n (reportDynamicInExpression allowConditional allowedProps e)
      = (reachedIdentsInExpression allowConditional e).count n
  | .lit (.str _) => by
      simp [reportDynamicInExpression, reachedIdentsInExpression, countIdentReports]
  | .lit .nonStr => by
      simp [reportDynamicInExpression, reachedIdentsInExpression, countIdentReports,
        reportAtIdent]
  | .ident name => by
      by_cases hn : name = n
      · subst hn
        have h' : ¬ name ∈ allowedProps := by simpa using h
        simp [reportDynamicInExpression, reachedIdentsInExpression, countIdentReports,
          reportAtIdent, h', List.countP_cons, List.count_cons]
      · simp only [reportDynamicInExpression, reachedIdentsInExpression]
        split <;> simp [countIdentReports, reportAtIdent, hn, List.count_cons]
  | .member o p c => by
      simp only [reportDynamicInExpression, reachedIdentsInExpression]
      split <;> simp [countIdentReports, reportAtIdent]
  | .objectE properties => countReachedInObject allowConditional allowedProps n h properties
  | .arrayE elements => countReachedInArray allowConditional allowedProps n h elements
  | .conditional t c a => by
      have ha := countReachedInExpression allowConditional allowedProps n h a
      have hc := countReachedInExpression allowConditional allowedProps n h c
      cases allowConditional
      · simp [reportDynamicInExpression, reachedIdentsInExpression, countIdentReports,
          reportAtIdent]
      · rw [show reportDynamicInExpression true allowedProps (.conditional t c a)
              = reportDynamicInExpression true allowedProps a
                ++ reportDynamicInExpression true allowedProps c from rfl,
            show reachedIdentsInExpression true (.conditional t c a)
              = reachedIdentsInExpression true a ++ reachedIdentsInExpression true c from rfl,
            countIdentReports_append, List.count_append, ha, hc]
  | .other => by
      simp [reportDynamicInExpression, reachedIdentsInExpression, countIdentReports,
        reportAtIdent]
end

/-- C1: for every expression tree, configuration and allowed-name set,
and every identifier name `n` not in the allowed set, the number of
reports located at an identifier named `n` equals the number of
occurrences of `n` among the identifier occurrences reachable by the
classification recursion — each reachable not-allowed identifier
occurrence is reported exactly once, regardless of nesting depth
(arrays, object values under dynamic keys, spread arguments,
conditional branches). -/
theorem c1_reached_identifier_reported_once (allowConditional : Bool)
    (allowedProps : List String) (e : Expr) (n : String)
    (h : n ∉ allowedProps) :
    countIdentReports n (reportDynamicInExpression allowConditional allowedProps e)
      = (reachedIdentsInExpression allowConditional e).count n :=
  countReachedInExpression allowConditional allowedProps n (by simpa using h) e

/-- C1 witness: in `[x, ...{ [1]: [x] }, ,]` (an identifier element, an
identifier nested in an array that is the value of a dynamic-keyed
property of a spread object, and a hole), the identifier `x` — not in
the allowed set `["class"]` — is reached twice and reported exactly
twice. -/
theorem c1_witness :
    countIdentReports "x"
        (reportDynamicInExpression true ["class"]
          (.arrayE (.consExpr (.ident "x")
            (.consSpread (.objectE (.consProp false false false (.lit .nonStr)
                (.arrayE (.consExpr (.ident "x") .nil)) .nil))
              (.consHole .nil)))))
      = (reachedIdentsInExpression true
          (.arrayE (.consExpr (.ident "x")
            (.consSpread (.objectE (.consProp false false false (.lit .nonStr)
                (.arrayE (.consExpr (.ident "x") .nil)) .nil))
              (.consHole .nil))))).count "x"
    ∧ (reachedIdentsInExpression true
        (.arrayE (.consExpr (.ident "x")
          (.consSpread (.objectE (.consProp false false false (.lit .nonStr)
              (.arrayE (.consExpr (.ident "x") .nil)) .nil))
            (.consHole .nil))))).count "x" = 2 :=
  ⟨c1_reached_identifier_reported_once true ["class"]
      (.arrayE (.consExpr (.ident "x")
        (.consSpread (.objectE (.consProp false false false (.lit .nonStr)
            (.arrayE (.consExpr (.ident "x") .nil)) .nil))
          (.consHole .nil)))) "x" (by decide),
    by decide⟩

/-- Pushing `some` through an if-chain whose final else is known to be
`some`. -/
theorem ite_push_some (c : Prop) [Decidable c] (x y : List Report)
    (o : Option (List Report)) (ho : o = some y) :
    (if c then some x else o) = some (if c then x else y) := by
  split <;> simp [ho]

/-- With a recursion budget of at least the node's size, each
fuel-bounded classification function completes and agrees with the
total one. -/
theorem fuelAdequate : ∀ fuel : Nat,
    (∀ (ac : Bool) (aps : List String) (e : Expr), exprSize e ≤ fuel →
      fuelReportDynamicInSpread fuel ac aps e
        = some (reportDynamicInSpread ac aps e))
    ∧ (∀ (ac : Bool) (aps : List String) (ps : Props), propsSize ps ≤ fuel →
      fuelReportDynamicInObject fuel ac aps ps
        = some (reportDynamicInObject ac aps ps))
    ∧ (∀ (ac : Bool) (aps : List String) (es : Elems), elemsSize es ≤ fuel →
      fuelReportDynamicInArray fuel ac aps es
        = some (reportDynamicInArray ac aps es))
    ∧ (∀ (ac : Bool) (aps : List String) (e : Expr), exprSize e ≤ fuel →
      fuelReportDynamicInExpression fuel ac aps e
        = some (reportDynamicInExpression ac aps e)) := by
  intro fuel
  induction fuel with
  | zero =>
      refine ⟨?_, ?_, ?_, ?_⟩ <;> intro ac aps x hx <;> exfalso <;> cases x <;>
        simp [exprSize, propsSize, elemsSize] at hx
  | succ fuel ih =>
      refine ⟨?_, ?_, ?_, ?_⟩
      · intro ac aps e hx
        match e with
        | .arrayE elements =>
            exact ih.2.2.1 ac aps elements (by simp [exprSize, propsSize, elemsSize] at hx; omega)
        | .objectE properties =>
            exact ih.2.1 ac aps properties (by simp [exprSize, propsSize, elemsSize] at hx; omega)
        | .lit v => rfl
        | .ident name => rfl
        | .member o p co => rfl
        | .conditional t cq al => rfl
        | .other => rfl
      · intro ac aps ps hx
        match ps with
        | .nil => rfl
        | .consSpread argument rest =>
            have h1 := ih.1 ac aps argument (by simp [exprSize, propsSize, elemsSize] at hx; omega)
            have h2 := ih.2.1 ac aps rest (by simp [exprSize, propsSize, elemsSize] at hx; omega)
            rw [show fuelReportDynamicInObject (fuel + 1) ac aps (.consSpread argument rest)
                  = optAppend (fuelReportDynamicInSpread fuel ac aps argument)
                      (fuelReportDynamicInObject fuel ac aps rest) from rfl, h1, h2]
            rfl
        | .consProp sh co me k v rest =>
            have h1 := ih.2.2.2 ac aps v (by simp [exprSize, propsSize, elemsSize] at hx; omega)
            have h2 := ih.2.1 ac aps rest (by simp [exprSize, propsSize, elemsSize] at hx; omega)
            have hchain := ite_push_some (sh = true) []
              (if (co || me) = true then [Report.prop sh co me k v]
               else if isIdentifier k = true then []
               else if isStringLiteral k = true then []
               else if isIdentifier v = true then []
               else reportDynamicInExpression ac aps v) _
              (ite_push_some ((co || me) = true) [Report.prop sh co me k v]
                (if isIdentifier k = true then []
                 else if isStringLiteral k = true then []
                 else if isIdentifier v = true then []
                 else reportDynamicInExpression ac aps v) _
                (ite_push_some (isIdentifier k = true) []
                  (if isStringLiteral k = true then []
                   else if isIdentifier v = true then []
                   else reportDynamicInExpression ac aps v) _
                  (ite_push_some (isStringLiteral k = true) []
                    (if isIdentifier v = true then []
                     else reportDynamicInExpression ac aps v) _
                    (ite_push_some (isIdentifier v = true) []
                      (reportDynamicInExpression ac aps v) _ h1))))
            rw [show fuelReportDynamicInObject (fuel + 1) ac aps
                    (.consProp sh co me k v rest)
                  = optAppend
                      (if sh = true then some []
                       else if (co || me) = true then
                         some [Report.prop sh co me k v]
                       else if isIdentifier k = true then some []
                       else if isStringLiteral k = true then some []
                       else if isIdentifier v = true then some []
                       else fuelReportDynamicInExpression fuel ac aps v)
                      (fuelReportDynamicInObject fuel ac aps rest) from rfl,
                hchain, h2]
            rfl
      · intro ac aps es hx
        match es with
        | .nil => rfl
        | .consHole rest =>
            exact ih.2.2.1 ac aps rest (by simp [exprSize, propsSize, elemsSize] at hx; omega)
        | .consSpread argument rest =>
            have h1 := ih.1 ac aps argument (by simp [exprSize, propsSize, elemsSize] at hx; omega)
            have h2 := ih.2.2.1 ac aps rest (by simp [exprSize, propsSize, elemsSize] at hx; omega)
            rw [show fuelReportDynamicInArray (fuel + 1) ac aps (.consSpread argument rest)
                  = optAppend (fuelReportDynamicInSpread fuel ac aps argument)
                      (fuelReportDynamicInArray fuel ac aps rest) from rfl, h1, h2]
            rfl
        | .consExpr e rest =>
            have h1 := ih.2.2.2 ac aps e (by simp [exprSize, propsSize, elemsSize] at hx; omega)
            have h2 := ih.2.2.1 ac aps rest (by simp [exprSize, propsSize, elemsSize] at hx; omega)
            rw [show fuelReportDynamicInArray (fuel + 1) ac aps (.consExpr e rest)
                  = optAppend (fuelReportDynamicInExpression fuel ac aps e)
                      (fuelReportDynamicInArray fuel ac aps rest) from rfl, h1, h2]
            rfl
      · intro ac aps e hx
        match e with
        | .lit (.str s) => rfl
        | .lit .nonStr => rfl
        | .ident name => rfl
        | .member o p co => rfl
        | .objectE properties =>
            exact ih.2.1 ac aps properties (by simp [exprSize, propsSize, elemsSize] at hx; omega)
        | .arrayE elements =>
            exact ih.2.2.1 ac aps elements (by simp [exprSize, propsSize, elemsSize] at hx; omega)
        | .conditional t cq al =>
            have h1 := ih.2.2.2 ac aps al (by simp [exprSize, propsSize, elemsSize] at hx; omega)
            have h2 := ih.2.2.2 ac aps cq (by simp [exprSize, propsSize, elemsSize] at hx; omega)
            cases ac
            · rfl
            · rw [show fuelReportDynamicInExpression (fuel + 1) true aps
                      (.conditional t cq al)
                    = optAppend (fuelReportDynamicInExpression fuel true aps al)
                        (fuelReportDynamicInExpression fuel true aps cq) from rfl,
                  h1, h2]
              rfl
        | .other => rfl

/-- C9: classification is total. With any recursion budget of at least
the expression's size the fuel-bounded walk completes, returning
exactly the total classification functions' reports, for every
expression, allowed-name set and configuration; and the shapes not
explicitly enumerated fall through to a single report (the defined
default outcome). -/
theorem c9_classification_total (fuel : Nat) (allowConditional : Bool)
    (allowedProps : List String) (e : Expr) (h : exprSize e ≤ fuel) :
    fuelReportDynamicInExpression fuel allowConditional allowedProps e
        = some (reportDynamicInExpression allowConditional allowedProps e)
    ∧ reportDynamicInExpression allowConditional allowedProps .other
        = [Report.expr .other]
    ∧ reportDynamicInExpression allowConditional allowedProps (.lit .nonStr)
        = [Report.expr (.lit .nonStr)] :=
  ⟨(fuelAdequate fuel).2.2.2 allowConditional allowedProps e h, rfl, rfl⟩

/-- C9 witness: a concrete nested expression of size at most 64 is
classified by the fuel-bounded walk with budget 64, completing with the
total walk's output. -/
theorem c9_witness :
    fuelReportDynamicInExpression 64 true ["class"]
        (.arrayE (.consExpr (.ident "y")
          (.consSpread (.objectE (.consSpread (.ident "z") .nil)) .nil)))
      = some (reportDynamicInExpression true ["class"]
          (.arrayE (.consExpr (.ident "y")
            (.consSpread (.objectE (.consSpread (.ident "z") .nil)) .nil)))) :=
  (c9_classification_total 64 true ["class"]
    (.arrayE (.consExpr (.ident "y")
      (.consSpread (.objectE (.consSpread (.ident "z") .nil)) .nil)))
    (by decide)).1
